import Mathlib

/-!
Shallow embedding of `awsio/python/lib/io/s3/s3dataset.py`.

The file models: Python list slicing and the two-level `worker_dist`
sharding, the epoch-seeded `shuffled_list`, the `download_data` suffix
dispatch, the `tardata`/`zipdata` demultiplexers, the `create_urls_list`
location resolution, and the `ShuffleDataset` reservoir shuffle.

External collaborators (the S3 store handle, the torch worker context,
Python's global `random` module, and the stdlib `tarfile`/`zipfile`
parsers) are not part of the repository; they are passed in as explicit
function or record parameters, so every definition stays executable.
-/

/-- Python list slicing `l[start:len(l):step]` for a non-negative `start` and a
positive `step`: the elements at indices `start, start + step, start + 2*step, …`.
After an element is taken, `step - 1` elements are skipped. -/
def pySlice {α : Type} : List α → Nat → Nat → List α
  | [], _, _ => []
  | x :: xs, 0, step => x :: pySlice xs (step - 1) step
  | _ :: xs, s + 1, step => pySlice xs s step

/-- `S3IterableDataset.worker_dist`: optional rank striding
`urls[rank:len(urls):world_size]` (active only in distributed mode) followed by
optional worker striding `urls[wid:len(urls):num_workers]` (active only when a
torch worker context exists, passed here as `workerInfo = some (wid, num_workers)`). -/
def worker_dist {α : Type} (isDist : Bool) (rank world_size : Nat)
    (workerInfo : Option (Nat × Nat)) (urls : List α) : List α :=
  let urls1 := if isDist then pySlice urls rank world_size else urls
  match workerInfo with
  | some wi => pySlice urls1 wi.1 wi.2
  | none => urls1

theorem pySlice_getElem? {α : Type} (l : List α) :
    ∀ (s k j : Nat), 0 < k → (pySlice l s k)[j]? = l[s + k * j]? := by
  induction l with
  | nil => intro s k j _; simp [pySlice]
  | cons x xs ih =>
    intro s k j hk
    match s with
    | 0 =>
      obtain ⟨k', rfl⟩ : ∃ k', k = k' + 1 := ⟨k - 1, by omega⟩
      match j with
      | 0 => simp [pySlice]
      | j + 1 =>
        have hidx : 0 + (k' + 1) * (j + 1) = (k' + (k' + 1) * j) + 1 := by ring
        show (x :: pySlice xs k' (k' + 1))[j + 1]? = (x :: xs)[0 + (k' + 1) * (j + 1)]?
        rw [hidx, List.getElem?_cons_succ, List.getElem?_cons_succ]
        exact ih k' (k' + 1) j (by omega)
    | s + 1 =>
      show (pySlice xs s k)[j]? = (x :: xs)[s + 1 + k * j]?
      have hidx : s + 1 + k * j = (s + k * j) + 1 := by ring
      rw [hidx, List.getElem?_cons_succ]
      exact ih s k j hk

/-- Claim C1: for a non-empty key list `K` and any `rank < world_size`,
`worker_id < worker_count`, the shard produced by `worker_dist` reads exactly
the key indices `rank + S * (w + W * j)` (first conjunct), its length is within
one of `K.length / (S * W)` (second conjunct), and every index `i < K.length`
belongs to exactly one `(rank, worker, position)` triple, so the shards are
pairwise disjoint in index and jointly recover `K` (third conjunct). -/
theorem worker_dist_partition (K : List String) (S W : Nat)
    (hK : K ≠ []) (hS : 0 < S) (hW : 0 < W) :
    (∀ r w j, r < S → w < W →
      (worker_dist true r S (some (w, W)) K)[j]? = K[r + S * (w + W * j)]?) ∧
    (∀ r w, r < S → w < W →
      K.length / (S * W) ≤ (worker_dist true r S (some (w, W)) K).length ∧
      (worker_dist true r S (some (w, W)) K).length ≤ K.length / (S * W) + 1) ∧
    (∀ i, i < K.length →
      ∃! t : Nat × Nat × Nat, t.1 < S ∧ t.2.1 < W ∧ i = t.1 + S * (t.2.1 + W * t.2.2)) := by
  have hget : ∀ r w j, r < S → w < W →
      (worker_dist true r S (some (w, W)) K)[j]? = K[r + S * (w + W * j)]? := by
    intro r w j hr hw
    have h1 : worker_dist true r S (some (w, W)) K = pySlice (pySlice K r S) w W := rfl
    rw [h1, pySlice_getElem? _ w W j hW, pySlice_getElem? _ r S _ hS]
  refine ⟨hget, ?_, ?_⟩
  · intro r w hr hw
    have hiff : ∀ j, (j < (worker_dist true r S (some (w, W)) K).length ↔
        r + S * (w + W * j) < K.length) := by
      intro j
      have h2 : ((worker_dist true r S (some (w, W)) K)[j]? = none) ↔
          (K[r + S * (w + W * j)]? = none) := by rw [hget r w j hr hw]
      rw [List.getElem?_eq_none_iff, List.getElem?_eq_none_iff] at h2
      constructor
      · intro hj
        rcases Nat.lt_or_ge (r + S * (w + W * j)) K.length with h | h
        · exact h
        · exact absurd (h2.mpr h) (by omega)
      · intro hj
        rcases Nat.lt_or_ge j (worker_dist true r S (some (w, W)) K).length with h | h
        · exact h
        · exact absurd (h2.mp h) (by omega)
    obtain ⟨m, hm, hdm⟩ : ∃ m, m < S * W ∧ S * W * (K.length / (S * W)) + m = K.length := by
      refine ⟨K.length % (S * W), Nat.mod_lt _ (Nat.mul_pos hS hW), ?_⟩
      have := Nat.mod_add_div K.length (S * W)
      omega
    generalize hq : K.length / (S * W) = q at hdm ⊢
    constructor
    · rcases Nat.eq_zero_or_pos q with h0 | hqpos
      · omega
      · obtain ⟨q', rfl⟩ : ∃ q', q = q' + 1 := ⟨q - 1, by omega⟩
        have key : r + S * (w + W * q') + 1 ≤ S * W * (q' + 1) := by
          obtain ⟨a, ha⟩ := Nat.exists_eq_add_of_lt hr
          obtain ⟨b, hb⟩ := Nat.exists_eq_add_of_lt hw
          subst ha; subst hb
          have h7 : r + 1 ≤ (r + a + 1) * (b + 1) := by
            calc r + 1 ≤ r + a + 1 := by omega
              _ = (r + a + 1) * 1 := by ring
              _ ≤ (r + a + 1) * (b + 1) := Nat.mul_le_mul_left _ (by omega)
          calc r + (r + a + 1) * (w + (w + b + 1) * q') + 1
              = (r + 1) + ((r + a + 1) * w + (r + a + 1) * ((w + b + 1) * q')) := by ring
            _ ≤ ((r + a + 1) * (b + 1)) +
                ((r + a + 1) * w + (r + a + 1) * ((w + b + 1) * q')) := by linarith
            _ = (r + a + 1) * (w + b + 1) * (q' + 1) := by ring
        have hle : S * W * (q' + 1) ≤ K.length := by linarith
        have hidx : r + S * (w + W * q') < K.length := by linarith
        have h6 := (hiff q').mpr hidx
        omega
    · by_contra hub
      push_neg at hub
      have hidx := (hiff (q + 1)).mp hub
      have hge : S * W * (q + 1) ≤ r + S * (w + W * (q + 1)) := by
        calc S * W * (q + 1) = S * (W * (q + 1)) := by ring
          _ ≤ S * (w + W * (q + 1)) := Nat.mul_le_mul_left _ (Nat.le_add_left _ w)
          _ ≤ r + S * (w + W * (q + 1)) := Nat.le_add_left _ r
      have hlt : K.length < S * W * (q + 1) := by
        have h3 : S * W * (q + 1) = S * W * q + S * W := by ring
        linarith
      linarith
  · intro i hi
    refine ⟨⟨i % S, (i / S) % W, i / S / W⟩, ⟨Nat.mod_lt _ hS, Nat.mod_lt _ hW, ?_⟩, ?_⟩
    · rw [Nat.mod_add_div (i / S) W, Nat.mod_add_div i S]
    · rintro ⟨r, w, j⟩ ⟨hr, hw, he⟩
      have h8 : i % S = r := by rw [he, Nat.add_mul_mod_self_left, Nat.mod_eq_of_lt hr]
      have h9 : i / S = w + W * j := by
        rw [he, Nat.add_mul_div_left _ _ hS, Nat.div_eq_of_lt hr, Nat.zero_add]
      have h10 : (i / S) % W = w := by
        rw [h9, Nat.add_mul_mod_self_left, Nat.mod_eq_of_lt hw]
      have h11 : i / S / W = j := by
        rw [h9, Nat.add_mul_div_left _ _ hW, Nat.div_eq_of_lt hw, Nat.zero_add]
      simp only [Prod.mk.injEq]
      exact ⟨h8.symm, h10.symm, h11.symm⟩

/-- Concrete instance of `worker_dist_partition` at `K = ["a", "b", "c"]`,
`world_size = 2`, `num_workers = 1`, with every hypothesis discharged. -/
theorem worker_dist_partition_witness :
    (["a", "b", "c"] : List String) ≠ [] ∧ (0 : Nat) < 2 ∧ (0 : Nat) < 1 ∧
    ((∀ r w j, r < 2 → w < 1 →
      (worker_dist true r 2 (some (w, 1)) (["a", "b", "c"] : List String))[j]? =
        (["a", "b", "c"] : List String)[r + 2 * (w + 1 * j)]?) ∧
    (∀ r w, r < 2 → w < 1 →
      (["a", "b", "c"] : List String).length / (2 * 1) ≤
        (worker_dist true r 2 (some (w, 1)) (["a", "b", "c"] : List String)).length ∧
      (worker_dist true r 2 (some (w, 1)) (["a", "b", "c"] : List String)).length ≤
        (["a", "b", "c"] : List String).length / (2 * 1) + 1) ∧
    (∀ i, i < (["a", "b", "c"] : List String).length →
      ∃! t : Nat × Nat × Nat, t.1 < 2 ∧ t.2.1 < 1 ∧ i = t.1 + 2 * (t.2.1 + 1 * t.2.2))) :=
  ⟨by decide, by decide, by decide,
    worker_dist_partition ["a", "b", "c"] 2 1 (by decide) (by decide) (by decide)⟩

/-- Model of Python's global `random` module as used by `shuffled_list`:
`seed e` builds the generator state that `random.seed(e)` installs (a pure
function of the integer seed), and `sample st population k` is
`random.sample(population, k)` run from state `st`, returning the sampled
list and the successor state. -/
structure PyRandom (σ : Type) where
  seed : Nat → σ
  sample : σ → List String → Nat → List String × σ

/-- State of an `S3IterableDataset` instance: the resolved key list plus the
bookkeeping attributes set in `__init__` / `set_epoch`. -/
structure S3IterableDataset where
  urls_list : List String
  epoch : Nat
  shuffle_urls : Bool
  dist : Bool
  rank : Nat
  world_size : Nat

/-- `S3IterableDataset.shuffled_list`: when `shuffle_urls` is set, reseed the
global generator with the current epoch and sample `len(urls_list)` elements
from `urls_list`; otherwise return `urls_list` unchanged.  `rng` is the
incoming global generator state (discarded by the reseed). -/
def S3IterableDataset.shuffled_list {σ : Type} (R : PyRandom σ)
    (d : S3IterableDataset) (rng : σ) : List String × σ :=
  if d.shuffle_urls then R.sample (R.seed d.epoch) d.urls_list d.urls_list.length
  else (d.urls_list, rng)

/-- `S3IterableDataset.__len__`: the length of the un-sharded resolved key list. -/
def S3IterableDataset.len (d : S3IterableDataset) : Nat := d.urls_list.length

/-- Claim C2: with shuffling enabled, the per-epoch permutation is a function
of `(epoch, urls_list)` alone — two instances that agree on the epoch and the
key list produce the same permuted list no matter what global generator state
each one starts from. -/
theorem shuffled_list_epoch_deterministic {σ : Type} (R : PyRandom σ)
    (d1 d2 : S3IterableDataset) (rng1 rng2 : σ)
    (hs1 : d1.shuffle_urls = true) (hs2 : d2.shuffle_urls = true)
    (he : d1.epoch = d2.epoch) (hu : d1.urls_list = d2.urls_list) :
    (S3IterableDataset.shuffled_list R d1 rng1).1 =
      (S3IterableDataset.shuffled_list R d2 rng2).1 := by
  simp [S3IterableDataset.shuffled_list, hs1, hs2, he, hu]

/-- Concrete instance of `shuffled_list_epoch_deterministic`: two replicas with
the same epoch and key list but different ranks and generator states. -/
theorem shuffled_list_epoch_deterministic_witness :
    (⟨["a", "b"], 7, true, false, 0, 1⟩ : S3IterableDataset).shuffle_urls = true ∧
    (⟨["a", "b"], 7, true, true, 3, 8⟩ : S3IterableDataset).shuffle_urls = true ∧
    (⟨["a", "b"], 7, true, false, 0, 1⟩ : S3IterableDataset).epoch =
      (⟨["a", "b"], 7, true, true, 3, 8⟩ : S3IterableDataset).epoch ∧
    (⟨["a", "b"], 7, true, false, 0, 1⟩ : S3IterableDataset).urls_list =
      (⟨["a", "b"], 7, true, true, 3, 8⟩ : S3IterableDataset).urls_list ∧
    (S3IterableDataset.shuffled_list
        (⟨fun e => e + 1, fun s l k => (l.reverse, s + k)⟩ : PyRandom Nat)
        ⟨["a", "b"], 7, true, false, 0, 1⟩ 0).1 =
      (S3IterableDataset.shuffled_list
        (⟨fun e => e + 1, fun s l k => (l.reverse, s + k)⟩ : PyRandom Nat)
        ⟨["a", "b"], 7, true, true, 3, 8⟩ 99).1 :=
  ⟨rfl, rfl, rfl, rfl,
    shuffled_list_epoch_deterministic _ _ _ _ _ rfl rfl rfl rfl⟩

/-- Claim C9: `__len__` reports the un-sharded total key count — it equals
`urls_list.length` for every instance, so it is independent of epoch,
shuffling, rank and world size (first two conjuncts), and there is an
instance whose shard is strictly shorter than its reported length (third
conjunct). -/
theorem s3_iterable_len_unsharded :
    (∀ d : S3IterableDataset, d.len = d.urls_list.length) ∧
    (∀ d1 d2 : S3IterableDataset, d1.urls_list = d2.urls_list → d1.len = d2.len) ∧
    (∃ (d : S3IterableDataset) (winfo : Option (Nat × Nat)),
      d.len ≠ (worker_dist d.dist d.rank d.world_size winfo d.urls_list).length) := by
  refine ⟨fun d => rfl, fun d1 d2 h => by simp [S3IterableDataset.len, h], ?_⟩
  exact ⟨⟨["a", "b"], 0, false, true, 0, 2⟩, none, by decide⟩

/-- Concrete instance of `s3_iterable_len_unsharded`: two instances sharing a
key list but differing in epoch, shuffle flag, rank and world size report the
same length. -/
theorem s3_iterable_len_unsharded_witness :
    (⟨["a"], 0, false, false, 0, 1⟩ : S3IterableDataset).urls_list =
      (⟨["a"], 5, true, true, 2, 4⟩ : S3IterableDataset).urls_list ∧
    (⟨["a"], 0, false, false, 0, 1⟩ : S3IterableDataset).len =
      (⟨["a"], 5, true, true, 2, 4⟩ : S3IterableDataset).len :=
  ⟨rfl, s3_iterable_len_unsharded.2.1 _ _ rfl⟩

/-- Module-level marker `meta_prefix = "__"`. -/
def meta_prefix : String := "__"

/-- Module-level marker `meta_suffix = "__"`. -/
def meta_suffix : String := "__"

/-- One entry of a parsed tar stream as `tarfile` hands it to `tardata`:
its path inside the archive, the regular-file flag `tarinfo.isreg()`, and the
bytes `stream.extractfile(tarinfo).read()` would return. -/
structure TarEntry (β : Type) where
  name : String
  isreg : Bool
  content : β

/-- Helper for the default skip pattern: after the closing pair of
underscores the match must end at `$` or continue with `/`.  Accepts lists
beginning with the second `_` of the closing marker. -/
def checkClose : List Char → Bool
  | ['_'] => true
  | '_' :: '/' :: _ => true
  | _ => false

/-- Helper for the default skip pattern: decides whether some split of the
remaining characters is `[^/]*` followed by `__` followed by `$` or `/`. -/
def tailMatch : List Char → Bool
  | [] => false
  | c :: rest => (c == '_' && checkClose rest) || (c != '/' && tailMatch rest)

/-- Decision procedure for `re.match(r"__[^/]*__($|/)", s)`: the anchored
match exists iff `s` starts with `__`, followed by a run of non-`/`
characters, then `__`, then the end of the string or a `/`. -/
def defaultSkipMeta (s : String) : Bool :=
  match s.data with
  | '_' :: '_' :: rest => tailMatch rest
  | _ => false

/-- `tardata` on an already-parsed tar stream (the `tarfile` collaborator's
output): drop non-regular entries, drop entries whose bare name (no `/`) both
starts with ` meta_prefix` and ends with ` meta_suffix`, drop entries matched
by the `skip_meta` pattern when one is given, and yield `(name, content)` for
the rest.  The single-character containment test models Python's
`"/" not in fname` substring test. -/
def tardata {β : Type} (skip_meta : Option (String → Bool))
    (entries : List (TarEntry β)) : List (String × β) :=
  entries.filterMap fun t =>
    if !t.isreg then none
    else if !(t.name.data.contains '/') && ( meta_prefix.data.isPrefixOf t.name.data)
        && ( meta_suffix.data.isSuffixOf t.name.data) then none
    else if (match skip_meta with | some p => p t.name | none => false) then none
    else some (t.name, t.content)

/-- `zipdata` on an already-parsed zip archive (the `zipfile` collaborator's
output): yield every namelist entry with its content, in listed order. -/
def zipdata {β : Type} (entries : List (String × β)) : List (String × β) := entries

/-- Python string slicing `s[-3:]`, as a character list: the last
`min 3 (len s)` characters. -/
def pyLast3 (s : String) : List Char := List.drop (s.data.length - 3) s.data

/-- `S3IterableDataset.download_data`: dispatch on `filename[-3:]` — `"tar"`
demultiplexes the fetched object through `tardata` (with the default skip
pattern), `"zip"` through `zipdata`, anything else yields the single record
`(filename, fetched bytes)`.  `s3_read` is the store collaborator;
`tarParse` / `zipParse` are the stdlib archive parsers. -/
def download_data {β : Type} (s3_read : String → β)
    (tarParse : β → List (TarEntry β)) (zipParse : β → List (String × β))
    (filename : String) : List (String × β) :=
  if pyLast3 filename = "tar".data then
    tardata (some defaultSkipMeta) (tarParse (s3_read filename))
  else if pyLast3 filename = "zip".data then
    zipdata (zipParse (s3_read filename))
  else [(filename, s3_read filename)]

theorem drop_last3_eq_iff (t l : List Char) (ht : t.length = 3) :
    List.drop (l.length - 3) l = t ↔ t <:+ l := by
  rw [List.suffix_iff_eq_drop, ht]
  exact eq_comm

/-- Claim C4: on a tar stream with exactly the regular entries `a.txt`,
`__meta__`, `b/c.txt` (in that order), `tardata` with the default skip
pattern yields exactly `("a.txt", …)` then `("b/c.txt", …)`: the bare
top-level `__…__` entry is skipped and the nested path survives both the
bare-name check and the default pattern. -/
theorem tardata_meta_skip {β : Type} (ca cm cc : β) :
    tardata (some defaultSkipMeta)
      [⟨"a.txt", true, ca⟩, ⟨"__meta__", true, cm⟩, ⟨"b/c.txt", true, cc⟩] =
      [("a.txt", ca), ("b/c.txt", cc)] := rfl

/-- Counterexample to claim C3 as stated: `"mortar"` does not end in `.tar`,
yet `download_data` demultiplexes it as a TAR container (because the code
compares `filename[-3:]` with `"tar"`, dot-free), so it does not yield the
single record `("mortar", fetched bytes)`. -/
theorem download_data_mortar_counterexample :
    download_data (fun _ => (0 : Nat)) (fun _ => [⟨"inner.txt", true, 7⟩])
        (fun _ => []) "mortar" = [("inner.txt", 7)] ∧
    [(("inner.txt" : String), (7 : Nat))] ≠ [("mortar", 0)] := by
  exact ⟨rfl, by decide⟩

/-- Claim C3 (amended): the container kind used by `download_data` is
determined by the last three characters of the filename — a name ending in
the letters `tar` (dot not required, e.g. `mortar`) is demultiplexed as TAR,
a name ending in `zip` as ZIP, and every other name yields exactly one
record `(filename, fetched bytes)`. -/
theorem download_data_last3_dispatch {β : Type} (s3_read : String → β)
    (tarParse : β → List (TarEntry β)) (zipParse : β → List (String × β))
    (filename : String) :
    ("tar".data <:+ filename.data →
      download_data s3_read tarParse zipParse filename =
        tardata (some defaultSkipMeta) (tarParse (s3_read filename))) ∧
    ("zip".data <:+ filename.data →
      download_data s3_read tarParse zipParse filename =
        zipdata (zipParse (s3_read filename))) ∧
    (¬ "tar".data <:+ filename.data → ¬ "zip".data <:+ filename.data →
      download_data s3_read tarParse zipParse filename =
        [(filename, s3_read filename)]) := by
  refine ⟨fun h => ?_, fun h => ?_, fun h1 h2 => ?_⟩
  · have hc : pyLast3 filename = "tar".data :=
      (drop_last3_eq_iff ("tar".data) filename.data (by decide)).mpr h
    simp only [download_data, if_pos hc]
  · have hc : pyLast3 filename = "zip".data :=
      (drop_last3_eq_iff ("zip".data) filename.data (by decide)).mpr h
    have hne : ¬ pyLast3 filename = "tar".data := by rw [hc]; decide
    simp only [download_data, if_neg hne, if_pos hc]
  · have hne1 : ¬ pyLast3 filename = "tar".data := fun hc =>
      h1 ((drop_last3_eq_iff ("tar".data) filename.data (by decide)).mp hc)
    have hne2 : ¬ pyLast3 filename = "zip".data := fun hc =>
      h2 ((drop_last3_eq_iff ("zip".data) filename.data (by decide)).mp hc)
    simp only [download_data, if_neg hne1, if_neg hne2]

/-- Concrete instance of `download_data_last3_dispatch`: `data.tar` ends in
`tar` and is demultiplexed through `tardata`. -/
theorem download_data_last3_dispatch_witness :
    "tar".data <:+ ("data.tar" : String).data ∧
    download_data (fun _ => (0 : Nat)) (fun _ => [⟨"inner.txt", true, 7⟩])
        (fun _ => []) "data.tar" =
      tardata (some defaultSkipMeta) [⟨"inner.txt", true, (7 : Nat)⟩] :=
  ⟨by decide, (download_data_last3_dispatch _ _ _ _).1 (by decide)⟩

/-- Loop body of `S3BaseClass.create_urls_list`, with the store collaborator's
`file_exists` and `list_files` passed in and `acc` the accumulating
`urls_list`.  A location that does not exist as a concrete object is listed;
an empty listing trips the `assert` (modelled as `Except.error` carrying the
assertion message); otherwise the listing is appended.  An existing location
is appended (the Python `elif urls_list` / `else` pair both amount to
appending one element). -/
def create_urls_go (file_exists : String → Bool) (list_files : String → List String) :
    List String → List String → Except String (List String)
  | [], acc => Except.ok acc
  | url :: rest, acc =>
    if ! file_exists url then
      if (list_files url).length = 0 then
        Except.error ("The directory " ++ url ++ " does not contain any objects.")
      else create_urls_go file_exists list_files rest (acc ++ list_files url)
    else if acc ≠ [] then create_urls_go file_exists list_files rest (acc ++ [url])
    else create_urls_go file_exists list_files rest [url]

/-- `S3BaseClass.create_urls_list`: resolve the user-supplied locations in
order, starting from an empty accumulator. -/
def create_urls_list (file_exists : String → Bool) (list_files : String → List String)
    (urls : List String) : Except String (List String) :=
  create_urls_go file_exists list_files urls []

theorem create_urls_go_error (file_exists : String → Bool)
    (list_files : String → List String) :
    ∀ (urls acc : List String), (∃ u ∈ urls, file_exists u = false ∧ list_files u = []) →
      ∃ msg, create_urls_go file_exists list_files urls acc = Except.error msg := by
  intro urls
  induction urls with
  | nil => intro acc h; simp at h
  | cons url rest ih =>
    intro acc h
    by_cases hfe : file_exists url
    · have hrest : ∃ u ∈ rest, file_exists u = false ∧ list_files u = [] := by
        obtain ⟨u, hu, hprop⟩ := h
        rcases List.mem_cons.mp hu with heq | hmem
        · subst heq; rw [hprop.1] at hfe; exact absurd hfe (by simp)
        · exact ⟨u, hmem, hprop⟩
      by_cases hacc : acc = []
      · obtain ⟨msg, hmsg⟩ := ih [url] hrest
        exact ⟨msg, by simp [create_urls_go, hfe, hacc, hmsg]⟩
      · obtain ⟨msg, hmsg⟩ := ih (acc ++ [url]) hrest
        exact ⟨msg, by simp [create_urls_go, hfe, hacc, hmsg]⟩
    · by_cases hlf : (list_files url).length = 0
      · exact ⟨"The directory " ++ url ++ " does not contain any objects.",
          by simp [create_urls_go, hfe, hlf]⟩
      · have hrest : ∃ u ∈ rest, file_exists u = false ∧ list_files u = [] := by
          obtain ⟨u, hu, hprop⟩ := h
          rcases List.mem_cons.mp hu with heq | hmem
          · subst heq
            rw [hprop.2] at hlf
            exact absurd rfl hlf
          · exact ⟨u, hmem, hprop⟩
        obtain ⟨msg, hmsg⟩ := ih (acc ++ list_files url) hrest
        exact ⟨msg, by simp [create_urls_go, hfe, hlf, hmsg]⟩

/-- Claim C7: if some location neither exists as a concrete object nor lists
any key, resolution fails with the `EmptyPrefixError` assertion — it never
returns a key list. -/
theorem create_urls_list_empty_prefix_error (file_exists : String → Bool)
    (list_files : String → List String) (urls : List String)
    (h : ∃ u ∈ urls, file_exists u = false ∧ list_files u = []) :
    ∃ msg, create_urls_list file_exists list_files urls = Except.error msg :=
  create_urls_go_error file_exists list_files urls [] h

/-- Concrete instance of `create_urls_list_empty_prefix_error`: a single
location that does not exist and lists nothing. -/
theorem create_urls_list_empty_prefix_error_witness :
    (∃ u ∈ (["s3://bucket/empty/"] : List String),
      (fun _ => false) u = false ∧ (fun _ => ([] : List String)) u = []) ∧
    ∃ msg, create_urls_list (fun _ => false) (fun _ => [])
      ["s3://bucket/empty/"] = Except.error msg :=
  ⟨⟨"s3://bucket/empty/", by simp⟩,
    create_urls_list_empty_prefix_error _ _ _ ⟨"s3://bucket/empty/", by simp⟩⟩

theorem create_urls_go_ok (file_exists : String → Bool)
    (list_files : String → List String) :
    ∀ (urls acc : List String), (∀ u ∈ urls, file_exists u = true ∨ list_files u ≠ []) →
      create_urls_go file_exists list_files urls acc =
        Except.ok (acc ++ urls.flatMap fun u =>
          if file_exists u then [u] else list_files u) := by
  intro urls
  induction urls with
  | nil => intro acc h; simp [create_urls_go]
  | cons url rest ih =>
    intro acc h
    have hrest : ∀ u ∈ rest, file_exists u = true ∨ list_files u ≠ [] :=
      fun u hu => h u (List.mem_cons_of_mem _ hu)
    by_cases hfe : file_exists url
    · by_cases hacc : acc = []
      · subst hacc
        simp [create_urls_go, hfe, ih [url] hrest]
      · simp [create_urls_go, hfe, hacc, ih (acc ++ [url]) hrest]
    · have hlf : list_files url ≠ [] := by
        rcases h url (List.mem_cons_self _ _) with hc | hc
        · exact absurd hc (by simpa using hfe)
        · exact hc
      have hlen : ¬ (list_files url).length = 0 := by
        simpa [List.length_eq_zero] using hlf
      simp [create_urls_go, hfe, hlen, ih (acc ++ list_files url) hrest]

/-- Claim C8: when every location either exists as a concrete key or has a
non-empty listing, `create_urls_list` processes the locations in
user-supplied order, appending the single key for an existing location and
the whole listing (order preserved) otherwise. -/
theorem create_urls_list_order (file_exists : String → Bool)
    (list_files : String → List String) (urls : List String)
    (h : ∀ u ∈ urls, file_exists u = true ∨ list_files u ≠ []) :
    create_urls_list file_exists list_files urls =
      Except.ok (urls.flatMap fun u =>
        if file_exists u then [u] else list_files u) :=
  create_urls_go_ok file_exists list_files urls [] h

/-- Concrete instance of `create_urls_list_order`, reproducing the spec's
example: resolving `["s3://bucket/file.bin", "s3://bucket/prefix/"]` where
`file.bin` exists and the prefix lists `[x, y]` yields exactly
`["s3://bucket/file.bin", "s3://bucket/prefix/x", "s3://bucket/prefix/y"]`. -/
theorem create_urls_list_order_witness :
    (∀ u ∈ (["s3://bucket/file.bin", "s3://bucket/prefix/"] : List String),
      (fun v => v == "s3://bucket/file.bin") u = true ∨
      (fun v => if v == "s3://bucket/prefix/" then
          ["s3://bucket/prefix/x", "s3://bucket/prefix/y"] else ([] : List String)) u ≠ []) ∧
    create_urls_list (fun v => v == "s3://bucket/file.bin")
        (fun v => if v == "s3://bucket/prefix/" then
          ["s3://bucket/prefix/x", "s3://bucket/prefix/y"] else [])
        ["s3://bucket/file.bin", "s3://bucket/prefix/"] =
      Except.ok ["s3://bucket/file.bin", "s3://bucket/prefix/x", "s3://bucket/prefix/y"] :=
  ⟨by decide, create_urls_list_order _ _ _ (by decide)⟩

theorem eraseIdx_length_succ {α : Type} :
    ∀ (l : List α) (i : Nat), i < l.length → (l.eraseIdx i).length + 1 = l.length
  | a :: l, 0, _ => by simp [List.eraseIdx]
  | a :: l, i + 1, h => by
    simp only [List.eraseIdx, List.length_cons]
    have := eraseIdx_length_succ l i (by simpa using h)
    omega

/-- Drain phase of `ShuffleDataset.__iter__`: while the buffer is non-empty,
pop a random slot and yield it.  `rand` is the realized stream of values
drawn by `random.randint` (reduced into range by `% len`), `t` the position
in that stream. -/
def shufDrain {α : Type} [Inhabited α] (rand : Nat → Nat) (t : Nat) (buf : List α) :
    List α :=
  if h : buf.length = 0 then []
  else
    buf.getD (rand t % buf.length) default ::
      shufDrain rand (t + 1) (buf.eraseIdx (rand t % buf.length))
termination_by buf.length
decreasing_by
  have hpos : 0 < buf.length := Nat.pos_of_ne_zero h
  have := eraseIdx_length_succ buf (rand t % buf.length) (Nat.mod_lt _ hpos)
  omega

/-- Main loop of `ShuffleDataset.__iter__`: while the (effective) buffer size
`bs` is non-zero, pop slot `randint(0, bs - 1)` and yield it, then pull the
next source item into the buffer; when the source is exhausted, or when
`bs = 0`, fall through to the drain loop. -/
def shufLoop {α : Type} [Inhabited α] (rand : Nat → Nat) (t bs : Nat) (buf : List α) :
    List α → List α
  | [] =>
    if bs = 0 then shufDrain rand t buf
    else
      buf.getD (rand t % bs) default ::
        shufDrain rand (t + 1) (buf.eraseIdx (rand t % bs))
  | x :: rest =>
    if bs = 0 then shufDrain rand t buf
    else
      buf.getD (rand t % bs) default ::
        shufLoop rand (t + 1) bs (buf.eraseIdx (rand t % bs) ++ [x]) rest

/-- State of a `ShuffleDataset` instance: the wrapped (finite) source and the
`buffer_size` attribute. -/
structure ShuffleDataset (α : Type) where
  dataset : List α
  buffer_size : Nat

/-- `ShuffleDataset.__iter__` run to completion: fill the buffer with up to
`buffer_size` source items — if the source exhausts first, overwrite the
instance's `buffer_size` attribute with the number actually pulled — then run
the main loop and drain.  Returns the yielded sequence together with the
instance state after the pass. -/
def ShuffleDataset.iter {α : Type} [Inhabited α] (rand : Nat → Nat)
    (s : ShuffleDataset α) : List α × ShuffleDataset α :=
  let shufbuf := s.dataset.take s.buffer_size
  let bs := if s.dataset.length < s.buffer_size then shufbuf.length else s.buffer_size
  (shufLoop rand 0 bs shufbuf (s.dataset.drop s.buffer_size),
    { s with buffer_size := bs })

theorem getD_cons_eraseIdx_perm {α : Type} [Inhabited α] :
    ∀ (l : List α) (i : Nat), i < l.length →
      (l.getD i default :: l.eraseIdx i).Perm l
  | x :: xs, 0, _ => by
    simp only [List.getD_cons_zero, List.eraseIdx_cons_zero]
    exact List.Perm.refl _
  | x :: xs, i + 1, h => by
    have ih := getD_cons_eraseIdx_perm xs i (by simpa using h)
    simp only [List.getD_cons_succ, List.eraseIdx_cons_succ]
    exact (List.Perm.swap x (xs.getD i default) (xs.eraseIdx i)).trans (ih.cons x)

theorem shufDrain_perm {α : Type} [Inhabited α] (rand : Nat → Nat) :
    ∀ (n : Nat) (buf : List α) (t : Nat), buf.length = n →
      (shufDrain rand t buf).Perm buf := by
  intro n
  induction n with
  | zero =>
    intro buf t hlen
    have hnil : buf = [] := List.length_eq_zero.mp hlen
    subst hnil
    rw [shufDrain]
    simp
  | succ n ih =>
    intro buf t hlen
    rw [shufDrain, dif_neg (by omega : ¬ buf.length = 0)]
    have hi : rand t % buf.length < buf.length := Nat.mod_lt _ (by omega)
    have hlen2 : (buf.eraseIdx (rand t % buf.length)).length = n := by
      have := eraseIdx_length_succ buf (rand t % buf.length) hi
      omega
    exact ((ih _ (t + 1) hlen2).cons _).trans (getD_cons_eraseIdx_perm buf _ hi)

theorem shufLoop_perm {α : Type} [Inhabited α] (rand : Nat → Nat) (bs : Nat)
    (hbs : 0 < bs) :
    ∀ (src buf : List α) (t : Nat), buf.length = bs →
      (shufLoop rand t bs buf src).Perm (buf ++ src) := by
  intro src
  induction src with
  | nil =>
    intro buf t hlen
    simp only [shufLoop]
    rw [if_neg (by omega : ¬ bs = 0), List.append_nil]
    have hi : rand t % bs < buf.length := by
      rw [hlen]; exact Nat.mod_lt _ hbs
    exact ((shufDrain_perm rand _ _ (t + 1) rfl).cons _).trans
      (getD_cons_eraseIdx_perm buf _ hi)
  | cons x rest ih =>
    intro buf t hlen
    simp only [shufLoop]
    rw [if_neg (by omega : ¬ bs = 0)]
    have hi : rand t % bs < buf.length := by
      rw [hlen]; exact Nat.mod_lt _ hbs
    have hlen2 : (buf.eraseIdx (rand t % bs) ++ [x]).length = bs := by
      rw [List.length_append]
      have := eraseIdx_length_succ buf _ hi
      simp only [List.length_cons, List.length_nil]
      omega
    refine ((ih (buf.eraseIdx (rand t % bs) ++ [x]) (t + 1) hlen2).cons _).trans ?_
    have h1 : (buf.eraseIdx (rand t % bs) ++ [x]) ++ rest =
        buf.eraseIdx (rand t % bs) ++ (x :: rest) := by simp
    rw [h1]
    have h2 : buf.getD (rand t % bs) default ::
        (buf.eraseIdx (rand t % bs) ++ (x :: rest)) =
        (buf.getD (rand t % bs) default :: buf.eraseIdx (rand t % bs)) ++ (x :: rest) := rfl
    rw [h2]
    exact (getD_cons_eraseIdx_perm buf _ hi).append_right _

theorem shufLoop_one {α : Type} [Inhabited α] (rand : Nat → Nat) :
    ∀ (src : List α) (x : α) (t : Nat), shufLoop rand t 1 [x] src = x :: src := by
  intro src
  induction src with
  | nil =>
    intro x t
    simp [shufLoop, shufDrain, Nat.mod_one]
  | cons y rest ih =>
    intro x t
    simp only [shufLoop, Nat.mod_one, List.getD_cons_zero, List.eraseIdx_cons_zero,
      List.nil_append, if_neg (by omega : ¬ (1 : Nat) = 0)]
    rw [ih y (t + 1)]

/-- Claim C5: `ShuffleDataset` with `buffer_size = 1` is a strict
pass-through — for every realization of the eviction randomness the yielded
sequence equals the source sequence in order. -/
theorem shuffle_dataset_bufone_id {α : Type} [Inhabited α] (rand : Nat → Nat)
    (src : List α) : (ShuffleDataset.iter rand ⟨src, 1⟩).1 = src := by
  match src with
  | [] => simp [ShuffleDataset.iter, shufLoop, shufDrain]
  | x :: xs =>
    show (shufLoop rand 0
        (if (x :: xs).length < 1 then ((x :: xs).take 1).length else 1)
        ((x :: xs).take 1) ((x :: xs).drop 1)) = x :: xs
    rw [show (if (x :: xs).length < 1 then ((x :: xs).take 1).length else 1) = 1
      from by simp]
    exact shufLoop_one rand xs x 0

/-- Claim C6: for every positive `buffer_size` and every realization of the
eviction randomness, a full pass of `ShuffleDataset` emits a permutation of
the source — every element exactly once, no duplication, no loss. -/
theorem shuffle_dataset_iter_perm {α : Type} [Inhabited α] (rand : Nat → Nat)
    (src : List α) (bs : Nat) (h : 0 < bs) :
    ((ShuffleDataset.iter rand ⟨src, bs⟩).1).Perm src := by
  show (shufLoop rand 0 (if src.length < bs then (src.take bs).length else bs)
      (src.take bs) (src.drop bs)).Perm src
  by_cases hc : src.length < bs
  · rw [if_pos hc]
    have htake : src.take bs = src := List.take_of_length_le (le_of_lt hc)
    have hdrop : src.drop bs = [] := List.drop_eq_nil_of_le (le_of_lt hc)
    rw [htake, hdrop]
    rcases eq_or_ne src [] with rfl | hne
    · simp [shufLoop, shufDrain]
    · have hpos : 0 < src.length := List.length_pos.mpr hne
      have hp := shufLoop_perm rand src.length hpos [] src 0 rfl
      simpa using hp
  · rw [if_neg hc]
    have hlen : (src.take bs).length = bs := by
      rw [List.length_take, Nat.min_eq_left (Nat.le_of_not_lt hc)]
    have hp := shufLoop_perm rand bs h (src.drop bs) (src.take bs) 0 hlen
    rw [List.take_append_drop] at hp
    exact hp

/-- Concrete instance of `shuffle_dataset_iter_perm` at `buffer_size = 2`. -/
theorem shuffle_dataset_iter_perm_witness :
    (0 : Nat) < 2 ∧
    ((ShuffleDataset.iter (fun t => t * 7 + 3)
        (⟨["a", "b", "c"], 2⟩ : ShuffleDataset String)).1).Perm ["a", "b", "c"] :=
  ⟨by decide, shuffle_dataset_iter_perm _ _ _ (by decide)⟩

/-- Claim C10: when the source exhausts during the initial fill, the
instance's `buffer_size` attribute is overwritten with the number of items
actually pulled (the source length); the dataset attribute is untouched, and
a second pass of the same instance starts from — and keeps — the reduced
buffer size rather than the constructor's value. -/
theorem shuffle_dataset_buffer_shrink_persistent {α : Type} [Inhabited α]
    (rand1 rand2 : Nat → Nat) (s : ShuffleDataset α)
    (h : s.dataset.length < s.buffer_size) :
    (ShuffleDataset.iter rand1 s).2.buffer_size = s.dataset.length ∧
    (ShuffleDataset.iter rand1 s).2.dataset = s.dataset ∧
    (ShuffleDataset.iter rand2 (ShuffleDataset.iter rand1 s).2).2.buffer_size =
      s.dataset.length := by
  have h1 : (ShuffleDataset.iter rand1 s).2.buffer_size = s.dataset.length := by
    show (if s.dataset.length < s.buffer_size then (s.dataset.take s.buffer_size).length
        else s.buffer_size) = s.dataset.length
    rw [if_pos h, List.length_take, Nat.min_eq_right (le_of_lt h)]
  refine ⟨h1, rfl, ?_⟩
  show (if (ShuffleDataset.iter rand1 s).2.dataset.length <
        (ShuffleDataset.iter rand1 s).2.buffer_size
      then ((ShuffleDataset.iter rand1 s).2.dataset.take
        (ShuffleDataset.iter rand1 s).2.buffer_size).length
      else (ShuffleDataset.iter rand1 s).2.buffer_size) = s.dataset.length
  have h2 : (ShuffleDataset.iter rand1 s).2.dataset = s.dataset := rfl
  rw [h1, h2, if_neg (lt_irrefl _)]

/-- Concrete instance of `shuffle_dataset_buffer_shrink_persistent`: one key,
constructed with `buffer_size = 5`. -/
theorem shuffle_dataset_buffer_shrink_persistent_witness :
    (⟨["a"], 5⟩ : ShuffleDataset String).dataset.length <
      (⟨["a"], 5⟩ : ShuffleDataset String).buffer_size ∧
    ((ShuffleDataset.iter (fun t => t)
        (⟨["a"], 5⟩ : ShuffleDataset String)).2.buffer_size =
      (⟨["a"], 5⟩ : ShuffleDataset String).dataset.length ∧
    (ShuffleDataset.iter (fun t => t)
        (⟨["a"], 5⟩ : ShuffleDataset String)).2.dataset =
      (⟨["a"], 5⟩ : ShuffleDataset String).dataset ∧
    (ShuffleDataset.iter (fun t => t * 2)
        (ShuffleDataset.iter (fun t => t)
          (⟨["a"], 5⟩ : ShuffleDataset String)).2).2.buffer_size =
      (⟨["a"], 5⟩ : ShuffleDataset String).dataset.length) :=
  ⟨by decide, shuffle_dataset_buffer_shrink_persistent _ _ _ (by decide)⟩
